import Mathlib

/-!
# Verification of the aggrep content-relation pipeline

A shallow embedding of the core pipeline of the `aggrep` repository
(`aggrep/utils.py`, `aggrep/jobs/base.py`, `aggrep/jobs/collect.py`,
`aggrep/jobs/process.py`, `aggrep/jobs/relate.py`, `aggrep/jobs/ctr.py`,
backed by the table definitions in `aggrep/models.py`), together with
theorems settling the specification claims about it.

Modelling conventions:
* Time instants (`datetime` values) are integers counting minutes; the
  embedded code only compares instants and subtracts whole-minute
  `timedelta`s, so an integer minute timeline is faithful.
* Database tables are Lean lists of rows in table order; SQLAlchemy
  queries that filter a table preserve that order, `create`/`add` appends
  a row, and a `delete` of a query removes every matching row (except for
  `Lock.remove`, which deletes the single row returned by `.first()`).
* Python `/` on integers is exact rational division, embedded in `ℚ`.
* The external collaborators (feed fetching/parsing, the spacy entity
  recogniser) are parameters of the functions that consume them.
-/

namespace Aggrep

/-- Time instants, in minutes.  Only order and minute differences are used
by the embedded code. -/
abbrev Time := Int

/-- Minutes per day (`timedelta(days=n)` becomes `n * minutesPerDay`). -/
def minutesPerDay : Int := 1440

/-! ## `utils.overlap` -/

/-- `aggrep/utils.py`, `overlap(s1, s2)`:
`len(s1 & s2) / min(len(s1), len(s2))` — the overlap coefficient of two
sets of entity strings, with Python float division embedded as exact
division in `ℚ`.  (Python raises `ZeroDivisionError` when both sets are
empty; in `ℚ` the value is then `0`.  Every claim about `overlap` is
restricted to nonempty sets, and the Relater only ever calls it with the
candidate set nonempty.) -/
def overlap (s1 s2 : Finset String) : ℚ :=
  mkRat ((s1 ∩ s2).card : Int) (min s1.card s2.card)

/-- `overlap` is the division the source writes (`mkRat n d` is `n / d`;
the `mkRat` form is used in the definition so that concrete runs reduce
inside the kernel). -/
theorem overlap_eq_div (s1 s2 : Finset String) :
    overlap s1 s2 = ((s1 ∩ s2).card : ℚ) / ((min s1.card s2.card : Nat) : ℚ) := by
  rw [overlap, Rat.mkRat_eq_divInt, Rat.divInt_eq_div]
  norm_num

/-! ## `jobs/base.py`: the `Lock` primitive

`JobType` is the closed enumeration seeded by `commands.py`
(`JOB_TYPES = ("COLLECT", "RELATE", "ANALYZE", "PROCESS")`); `JobLock`
is a row of the `joblock` table (`models.py`). -/

/-- The closed enumeration of job kinds. -/
inductive JobType where
  | COLLECT
  | PROCESS
  | RELATE
  | ANALYZE
deriving DecidableEq, Repr

/-- A row of the `joblock` table: a job kind and the acquisition time. -/
structure JobLock where
  job : JobType
  lock_datetime : Time
deriving DecidableEq, Repr

/-- The `joblock` table, in insertion order. -/
abbrev LockTable := List JobLock

/-- `Lock._lock`: the rows of the `joblock` table for a given kind. -/
def locksFor (tbl : LockTable) (j : JobType) : List JobLock :=
  tbl.filter (fun l => decide (l.job = j))

/-- `Lock.is_locked`: a kind is locked when at least one row exists
(`self._lock.count() > 0`). -/
def is_locked (tbl : LockTable) (j : JobType) : Bool :=
  decide (0 < (locksFor tbl j).length)

/-- `Lock.is_expired`: when locked, the first row is compared against
`now() - timedelta(minutes=self.timeout)`; otherwise `False`. -/
def is_expired (tbl : LockTable) (j : JobType) (timeout : Int) (tnow : Time) :
    Bool :=
  if is_locked tbl j then
    match (locksFor tbl j).head? with
    | some prior => decide (prior.lock_datetime < tnow - timeout)
    | none => false
  else false

/-- `Lock.create`: `JobLock.create(job=self.job_type, lock_datetime=now())`
appends a fresh row. -/
def createLock (tbl : LockTable) (j : JobType) (tnow : Time) : LockTable :=
  tbl ++ [⟨j, tnow⟩]

/-- `Lock.remove`: deletes the single row returned by `self._lock.first()`
(the first row for the kind).  The callers only invoke it while the kind
is locked. -/
def removeLock (tbl : LockTable) (j : JobType) : LockTable :=
  tbl.eraseP (fun l => decide (l.job = j))

/-- The lock-acquisition preamble shared verbatim by `Collector.run`,
`Processor.run`, `Relater.run` and `CTR.run`:

```
if self.lock.is_locked():
    if not self.lock.is_expired():
        return            # skip this scheduled run
    else:
        self.lock.remove()
self.lock.create()
```

Returns whether the caller acquired the lock, together with the
resulting `joblock` table. -/
def tryAcquire (tbl : LockTable) (j : JobType) (timeout : Int) (tnow : Time) :
    Bool × LockTable :=
  if is_locked tbl j then
    if is_expired tbl j timeout tnow then
      (true, createLock (removeLock tbl j) j tnow)
    else
      (false, tbl)
  else
    (true, createLock tbl j tnow)

/-! ## The data model (`models.py`)

Rows carry exactly the columns the embedded jobs read.  Static taxonomy
rows (`categories`, `sources`) are identified by their integer primary
keys. -/

/-- A row of `feeds`: primary key, source key, category key. -/
structure Feed where
  id : Nat
  sourceId : Nat
  categoryId : Nat
deriving DecidableEq, Repr

/-- A row of `feed_statuses` (`models.Status`): the feed key plus the
adaptive-polling state.  The table has exactly the columns `feed_id`,
`update_datetime` and `update_frequency` (besides `id`). -/
structure Status where
  feedId : Nat
  update_datetime : Time
  update_frequency : Nat
deriving DecidableEq, Repr

/-- A row of `posts` (the Item of the spec), with the columns the jobs
read. -/
structure Post where
  id : Nat
  feedId : Nat
  title : String
  desc : String
  link : String
  published_datetime : Time
deriving DecidableEq, Repr

/-- A row of `post_actions` (the ItemAction of the spec). -/
structure PostAction where
  postId : Nat
  clicks : Nat
  impressions : Nat
  ctr : ℚ
deriving DecidableEq, Repr

/-- A row of `entities`: an (item, normalized term) pair. -/
structure Entity where
  postId : Nat
  entity : String
deriving DecidableEq, Repr

/-- A row of `similarities`: a directed edge between posts. -/
structure Similarity where
  source_id : Nat
  related_id : Nat
deriving DecidableEq, Repr

/-- The persistent store: every table the pipeline touches, each in table
(insertion) order.  `entityQueue` and `simQueue` are the
`entity_queue`/`similarity_queue` tables, holding post keys. -/
structure Store where
  categories : List Nat
  feeds : List Feed
  statuses : List Status
  posts : List Post
  postActions : List PostAction
  entities : List Entity
  entityQueue : List Nat
  simQueue : List Nat
  similarities : List Similarity
  locks : LockTable
deriving DecidableEq, Repr

/-- Look up the feed row a foreign key points at (`post.feed`,
`status.feed`: `uselist=False` relationships resolved by primary key). -/
def feedOf (st : Store) (fid : Nat) : Option Feed :=
  st.feeds.find? (fun f => decide (f.id = fid))

/-- The category key of a post, through its feed
(`Post.feed.has(Feed.category == category)`). -/
def postCategory (st : Store) (p : Post) : Option Nat :=
  (feedOf st p.feedId).map Feed.categoryId

/-- `post.entities`: the entity terms recorded for a post, in table
order. -/
def postEntities (st : Store) (pid : Nat) : List String :=
  (st.entities.filter (fun e => decide (e.postId = pid))).map Entity.entity

/-- The Python `set(...)` of a post's entity terms. -/
def entitySet (st : Store) (pid : Nat) : Finset String :=
  (postEntities st pid).toFinset

/-! ## `jobs/relate.py`: the Relater -/

/-- `relate.THRESHOLD = 0.75` (the rational `3 / 4`, written with `mkRat`
so that it reduces inside the kernel). -/
def THRESHOLD : ℚ := mkRat 3 4

/-- `relate.BATCH_SIZE = 100`. -/
def RELATE_BATCH_SIZE : Nat := 100

/-- `Relater.lock_timeout = 8`. -/
def RELATE_LOCK_TIMEOUT : Int := 8

/-- `Relater.get_enqueued_posts(category)`: the posts of the
`similarity_queue` rows whose post's feed is in the category, in queue
order. -/
def enqueuedPosts (st : Store) (cat : Nat) : List Post :=
  (st.simQueue.filterMap
      (fun pid => st.posts.find? (fun p => decide (p.id = pid)))).filter
    (fun p => decide (postCategory st p = some cat))

/-- Membership in `Relater.set_entity_cache`: `entity_cache[e]` is the set
of ids of posts published within the last two days whose feed is in the
category and which carry entity `e`. -/
def entityCacheIds (st : Store) (tnow : Time) (cat : Nat) (e : String) :
    List Nat :=
  (((st.posts.filter
        (fun p => decide (tnow - 2 * minutesPerDay ≤ p.published_datetime))).filter
      (fun p => decide (postCategory st p = some cat))).filter
    (fun p => decide (e ∈ postEntities st p.id))).map Post.id

/-- The candidate query of `Relater.process_batch`:
`Post.query.filter(Post.id.in_(unioned_post_ids))` where
`unioned_post_ids` is the union of `entity_cache[e]` over the entities
`e` of the queued post — i.e. the posts (in table order) whose id lies in
that union. -/
def keywordedPosts (st : Store) (tnow : Time) (cat : Nat) (p : Post) :
    List Post :=
  st.posts.filter
    (fun rp =>
      (postEntities st p.id).any
        (fun e => (entityCacheIds st tnow cat e).any (fun i => decide (i = rp.id))))

/-- The inner loop of `Relater.process_batch` for one queued post: skip
the post itself, keep every candidate whose overlap score clears the
threshold. -/
def acceptedPosts (st : Store) (tnow : Time) (cat : Nat) (p : Post) :
    List Post :=
  (keywordedPosts st tnow cat p).filter
    (fun rp =>
      decide (rp.id ≠ p.id) &&
      decide (THRESHOLD ≤ overlap (entitySet st p.id) (entitySet st rp.id)))

/-- The `Similarity` rows `Relater.process_batch` adds for one queued
post: for each accepted candidate, `s_to_r` then `r_to_s`. -/
def newSimsForPost (st : Store) (tnow : Time) (cat : Nat) (p : Post) :
    List Similarity :=
  (acceptedPosts st tnow cat p).flatMap
    (fun rp => [⟨p.id, rp.id⟩, ⟨rp.id, p.id⟩])

/-- `Relater.process_batch` (the committed effect of one batch): append
the new similarity rows of every post of the batch, and delete the
`similarity_queue` rows of all batch post ids.  The entity cache and the
`posts`/`entities` tables are unchanged by the batch, so each post's rows
are computed against the store the batch started from on those tables
(which the function never modifies). -/
def processBatch (st : Store) (tnow : Time) (cat : Nat) (batch : List Post) :
    Store :=
  { st with
    similarities := st.similarities ++ batch.flatMap (newSimsForPost st tnow cat)
    simQueue :=
      st.simQueue.filter (fun pid => decide (pid ∉ batch.map Post.id)) }

/-- Fuel-indexed chunking (structural, so that closed runs evaluate). -/
def chunksFuel (n : Nat) : Nat → List Post → List (List Post)
  | 0, _ => []
  | _, [] => []
  | fuel + 1, l => l.take n :: chunksFuel n fuel (l.drop n)

/-- The batching loop of `Relater.run`: slices of `BATCH_SIZE` posts. -/
def chunks (n : Nat) (l : List Post) : List (List Post) :=
  chunksFuel n l.length l

/-- One category of `Relater.run`: fetch the category's queue, and when
nonempty process it in batches of `BATCH_SIZE` (the entity cache is set
here; its content is recomputed from the store by `entityCacheIds`). -/
def relaterProcessCategory (st : Store) (tnow : Time) (cat : Nat) : Store :=
  let enq := enqueuedPosts st cat
  if enq.length = 0 then st
  else (chunks RELATE_BATCH_SIZE enq).foldl
    (fun s batch => processBatch s tnow cat batch) st

/-- The body of `Relater.run` after the lock preamble: create the lock,
return at once (keeping the lock) when the whole queue is empty,
otherwise process every category and finally remove the lock. -/
def relaterBody (st : Store) (tnow : Time) : Store :=
  let st1 : Store := { st with locks := createLock st.locks .RELATE tnow }
  if st1.simQueue.length = 0 then st1
  else
    let st2 := st1.categories.foldl
      (fun s cat => relaterProcessCategory s tnow cat) st1
    { st2 with locks := removeLock st2.locks .RELATE }

/-- `Relater.run`: the lock preamble followed by the body. -/
def relaterRun (st : Store) (tnow : Time) : Store :=
  if is_locked st.locks .RELATE then
    if is_expired st.locks .RELATE RELATE_LOCK_TIMEOUT tnow then
      relaterBody { st with locks := removeLock st.locks .RELATE } tnow
    else st
  else relaterBody st tnow

/-! ## `jobs/collect.py`: the Collector -/

/-- `collect.MIN_UPDATE_FREQ = 3`. -/
def MIN_UPDATE_FREQ : Int := 3

/-- `collect.MAX_UPDATE_FREQ = 6`. -/
def MAX_UPDATE_FREQ : Int := 6

/-- The clamping chain of `Collector.process_feeds`:
`if f < MIN: f = MIN elif f > MAX: f = MAX`. -/
def clampFreq (f : Int) : Int :=
  if f < MIN_UPDATE_FREQ then MIN_UPDATE_FREQ
  else if f > MAX_UPDATE_FREQ then MAX_UPDATE_FREQ
  else f

/-- The frequency adaptation of `Collector.process_feeds`: decrement when
the feed yielded new posts, increment when it yielded none, then clamp.
Stored frequencies are naturals (the arithmetic is done on `ℤ` exactly as
Python does, and the clamped result is never negative). -/
def adjustedFrequency (freq : Nat) (newPostCount : Nat) : Nat :=
  (clampFreq (if 0 < newPostCount then (freq : Int) - 1 else (freq : Int) + 1)).toNat

/-- The per-feed status update of `Collector.process_feeds`:
`feed.status.update(update_frequency=..., update_datetime=now())` — the
timestamp is stamped unconditionally. -/
def processFeedStatus (s : Status) (newPostCount : Nat) (tnow : Time) : Status :=
  { s with
    update_frequency := adjustedFrequency s.update_frequency newPostCount
    update_datetime := tnow }

/-- The columns of `models.Status` (table `feed_statuses`): exactly the
primary key, `feed_id`, `update_datetime` and `update_frequency`. -/
def statusColumns : List String := ["id", "feed_id", "update_datetime", "update_frequency"]

/-- `Collector.get_due_feeds(category)`.  Building the query filter
evaluates the class attribute `Status.active`; `models.Status` declares
no such column (see `statusColumns`), so in Python the attribute access
raises `AttributeError` before any row is inspected.  The embedding
returns `Except`: the error value models that exception, and the
(unreachable) success branch is the selection loop of the function body,
`update_datetime <= now() - timedelta(minutes=2 ** update_frequency)`. -/
def getDueFeeds (st : Store) (tnow : Time) (cat : Nat) : Except String (List Feed) :=
  if "active" ∈ statusColumns then
    .ok
      (((st.statuses.filter
            (fun s => decide ((feedOf st s.feedId).map Feed.categoryId = some cat))).filter
          (fun s =>
            decide (s.update_datetime ≤ tnow - 2 ^ s.update_frequency))).filterMap
        (fun s => feedOf st s.feedId))
  else .error "AttributeError: type object Status has no attribute active"

/-- One committed transaction of the Collector persistence loop:
`p.save()` (`CRUDMixin.save` issues `db.session.commit()` itself). -/
def addPostCommit (p : Post) (st : Store) : Store :=
  { st with posts := st.posts ++ [p] }

/-- One committed transaction:
`PostAction.create(post_id=p.id, clicks=0, impressions=0, ctr=0)`. -/
def addPostActionCommit (pid : Nat) (st : Store) : Store :=
  { st with postActions := st.postActions ++ [⟨pid, 0, 0, 0⟩] }

/-- One committed transaction: `EntityProcessQueue.create(post_id=p.id)`. -/
def addEntityQueueCommit (pid : Nat) (st : Store) : Store :=
  { st with entityQueue := st.entityQueue ++ [pid] }

/-- The persistence of one surviving entry in `Collector.process_feeds`:
three separate transactions, committed in this order (`CRUDMixin.save`
and `CRUDMixin.create` each call `db.session.commit()`):

```
p.save()
PostAction.create(post_id=p.id, clicks=0, impressions=0, ctr=0)
EntityProcessQueue.create(post_id=p.id)
```

A state reached by applying a prefix of this list is a committed store
visible if a later transaction in the list fails (or the process dies)
before running. -/
def persistEntryCommits (p : Post) : List (Store → Store) :=
  [addPostCommit p, addPostActionCommit p.id, addEntityQueueCommit p.id]

/-- One committed transaction: the `feed.status.update(...)` at the end
of the feed's iteration of `Collector.process_feeds` (the one-to-one
status row of the feed is rewritten). -/
def updateStatusCommit (fid : Nat) (n : Nat) (tnow : Time) (st : Store) : Store :=
  { st with
    statuses := st.statuses.map
      (fun s => if s.feedId = fid then processFeedStatus s n tnow else s) }

/-- The committed transactions of one feed's iteration of
`Collector.process_feeds`: the three per-post commits for each parsed
post, then the status update (`new_post_count = len(posts)` is read
before the loop). -/
def collectorFeedCommits (tnow : Time) (feed : Feed) (ps : List Post) :
    List (Store → Store) :=
  ps.flatMap persistEntryCommits ++ [updateStatusCommit feed.id ps.length tnow]

/-- The committed transactions of the persistence phase of
`Collector.process_feeds` over its `feed_posts` pairs (the fetched,
already filtered and deduplicated entries handed over by
`process_posts`, an input here since fetching/parsing is the external
collaborator). -/
def collectorCommits (tnow : Time) (pairs : List (Feed × List Post)) :
    List (Store → Store) :=
  pairs.flatMap (fun pr => collectorFeedCommits tnow pr.1 pr.2)

/-- Run a list of committed transactions in order. -/
def applyCommits (cs : List (Store → Store)) (st : Store) : Store :=
  cs.foldl (fun s c => c s) st

/-- The persistence phase of `Collector.process_feeds` when every
transaction commits. -/
def collectorPersistFeeds (st : Store) (tnow : Time)
    (pairs : List (Feed × List Post)) : Store :=
  applyCommits (collectorCommits tnow pairs) st

/-- The persistence phase with a failure oracle: `failAt = some k` means
the `(k+1)`-st transaction raises on commit.  `Collector.process_feeds`
and `Collector.run` contain no exception handler around this loop, so
the exception propagates out of `run` (the `.error` case); the store
keeps everything the earlier transactions committed — and the `joblock`
row, which no commit on the way touched, is left in place. -/
def collectorPersistFeedsE (st : Store) (tnow : Time)
    (pairs : List (Feed × List Post)) (failAt : Option Nat) :
    Except Store Store :=
  match failAt with
  | none => .ok (collectorPersistFeeds st tnow pairs)
  | some k => .error (applyCommits ((collectorCommits tnow pairs).take k) st)

/-! ## `jobs/process.py`: the Extractor (Processor) -/

/-- `process.TOP_N_ENTITIES = 8`. -/
def TOP_N_ENTITIES : Nat := 8

/-- First-occurrence deduplication: the iteration order of the keys of a
Python `Counter` (insertion order). -/
def firstDedupAux (seen : List String) : List String → List String
  | [] => []
  | a :: l =>
    if a ∈ seen then firstDedupAux seen l
    else a :: firstDedupAux (a :: seen) l

/-- The distinct words of a list, in first-occurrence order. -/
def firstDedup (l : List String) : List String :=
  firstDedupAux [] l

/-- Stable insertion for a descending-count sort: a word is placed before
the first word of strictly smaller count, i.e. after earlier words of
equal count. -/
def insertByCountDesc (cnt : String → Nat) (a : String) :
    List String → List String
  | [] => [a]
  | b :: l =>
    if cnt b ≤ cnt a then a :: b :: l else b :: insertByCountDesc cnt a l

/-- Stable sort by descending count. -/
def sortByCountDesc (cnt : String → Nat) : List String → List String
  | [] => []
  | a :: l => insertByCountDesc cnt a (sortByCountDesc cnt l)

/-- `Counter(l).most_common(n)` restricted to the words: the distinct
words of `l` sorted by descending multiplicity (ties in first-occurrence
order, as CPython's stable sort gives), truncated to `n`. -/
def mostCommon (n : Nat) (l : List String) : List String :=
  (sortByCountDesc (fun w => l.count w) (firstDedup l)).take n

/-- The terms `Processor.process_batch` keeps for a post: nothing when
the description is empty (`if not post.desc: continue`), otherwise the
`TOP_N_ENTITIES` most common words of the extraction output over
`"{title}. {desc}"` (braces denoting Python interpolation).  `extractFn`
stands for `extract(clean(text))`: `extract` runs the spacy
entity-recognition model — the external collaborator — and `clean` only
normalises the input string. -/
def keptTerms (extractFn : String → List String) (p : Post) : List String :=
  if p.desc = "" then []
  else mostCommon TOP_N_ENTITIES (extractFn (p.title ++ ". " ++ p.desc))

/-- The `Entity` rows `Processor.process_batch` adds for one post: one
per kept term. -/
def processorNewEntities (extractFn : String → List String) (p : Post) :
    List Entity :=
  (keptTerms extractFn p).map (fun w => ⟨p.id, w⟩)

/-- The `similarity_queue` rows `Processor.process_batch` adds for one
post: one exactly when at least one term was kept
(`post_has_entities`). -/
def processorEnqueues (extractFn : String → List String) (p : Post) :
    List Nat :=
  if keptTerms extractFn p = [] then [] else [p.id]

/-- `Processor.process_batch` (the committed effect of one batch): append
the new `Entity` rows and `similarity_queue` rows of every post of the
batch, and delete the `entity_queue` rows of all batch post ids
(`post_ids` collects every post of the batch, before the empty-description
check). -/
def processorProcessBatch (extractFn : String → List String) (st : Store)
    (batch : List Post) : Store :=
  { st with
    entities := st.entities ++ batch.flatMap (processorNewEntities extractFn)
    simQueue := st.simQueue ++ batch.flatMap (processorEnqueues extractFn)
    entityQueue :=
      st.entityQueue.filter (fun pid => decide (pid ∉ batch.map Post.id)) }

/-- `Processor.process_batch` with the commit outcome explicit: on a
commit failure the staged changes are rolled back (`db.session.rollback()`
restores the store the batch started from), the lock row is deleted
(`self.lock.remove()`), and the exception is re-raised (the `.error`
case). -/
def processorProcessBatchE (extractFn : String → List String) (st : Store)
    (batch : List Post) (commitOk : Bool) : Except Store Store :=
  if commitOk then .ok (processorProcessBatch extractFn st batch)
  else .error { st with locks := removeLock st.locks .PROCESS }

/-- `Relater.process_batch` with the commit outcome explicit (same
`try/except: rollback; lock.remove; raise` shape as the Processor). -/
def processBatchE (st : Store) (tnow : Time) (cat : Nat) (batch : List Post)
    (commitOk : Bool) : Except Store Store :=
  if commitOk then .ok (processBatch st tnow cat batch)
  else .error { st with locks := removeLock st.locks .RELATE }

/-! ## `jobs/ctr.py`: the CTR updater -/

/-- `CTR.lock_timeout = 4`. -/
def ANALYZE_LOCK_TIMEOUT : Int := 4

/-- The filter of `CTR.get_due_posts`:
`PostAction.post.has(Post.published_datetime >= now() - timedelta(days=1))`
together with `impressions > 0` and `clicks > 0`. -/
def ctrDue (st : Store) (tnow : Time) (a : PostAction) : Bool :=
  st.posts.any
      (fun p => decide (p.id = a.postId) &&
        decide (tnow - minutesPerDay ≤ p.published_datetime)) &&
    decide (0 < a.impressions) && decide (0 < a.clicks)

/-- The filter of `CTR.get_expired_posts`: the same, with the post
published before the one-day cutoff. -/
def ctrExpired (st : Store) (tnow : Time) (a : PostAction) : Bool :=
  st.posts.any
      (fun p => decide (p.id = a.postId) &&
        decide (p.published_datetime < tnow - minutesPerDay)) &&
    decide (0 < a.impressions) && decide (0 < a.clicks)

/-- The row update `CTR.run` performs: due rows get
`ctr = clicks / impressions` (`mkRat n d` is `n / d`), expired rows get
`ctr = 0`, all other rows are untouched.  The two selections read only
columns the updates never change, so the two sequential update loops of
the source equal one pass over the table; the expired branch is tested
first because its loop runs second and would overwrite (the selections
are in fact disjoint whenever post ids are unique). -/
def ctrUpdateRow (st : Store) (tnow : Time) (a : PostAction) : PostAction :=
  if ctrExpired st tnow a then { a with ctr := 0 }
  else if ctrDue st tnow a then
    { a with ctr := mkRat (a.clicks : Int) a.impressions }
  else a

/-- The body of `CTR.run` after the lock preamble: create the lock,
update the due rows then the expired rows, remove the lock. -/
def ctrRunBody (st : Store) (tnow : Time) : Store :=
  let st1 : Store := { st with locks := createLock st.locks .ANALYZE tnow }
  let st2 : Store :=
    { st1 with postActions := st1.postActions.map (ctrUpdateRow st1 tnow) }
  { st2 with locks := removeLock st2.locks .ANALYZE }

/-- `CTR.run`: the lock preamble followed by the body. -/
def ctrRun (st : Store) (tnow : Time) : Store :=
  if is_locked st.locks .ANALYZE then
    if is_expired st.locks .ANALYZE ANALYZE_LOCK_TIMEOUT tnow then
      ctrRunBody { st with locks := removeLock st.locks .ANALYZE } tnow
    else st
  else ctrRunBody st tnow

/-! ## Supporting lemmas -/

/-- Filtering for a kind commutes with appending a row of that kind. -/
theorem locksFor_createLock (tbl : LockTable) (j : JobType) (t : Time) :
    locksFor (createLock tbl j t) j = locksFor tbl j ++ [⟨j, t⟩] := by
  simp [locksFor, createLock, List.filter_append]

/-- Removing the first row of a kind drops the head of that kind's rows. -/
theorem locksFor_removeLock (tbl : LockTable) (j : JobType) :
    locksFor (removeLock tbl j) j = (locksFor tbl j).drop 1 := by
  induction tbl with
  | nil => rfl
  | cons l tl ih =>
    by_cases h : l.job = j
    · simp [locksFor, removeLock, List.eraseP_cons, h]
    · simpa [locksFor, removeLock, List.eraseP_cons, h] using ih

/-! ## C2: algebraic properties of the overlap coefficient -/

/-- C2.  For nonempty finite sets: `overlap(E,E) = 1`, `overlap` is
symmetric, and `overlap(A,B)` lies in `[0,1]`. -/
theorem overlap_coefficient_properties (A B : Finset String)
    (hA : A.Nonempty) (hB : B.Nonempty) :
    overlap A A = 1 ∧ overlap A B = overlap B A ∧
      0 ≤ overlap A B ∧ overlap A B ≤ 1 := by
  have hA0 : 0 < A.card := Finset.card_pos.mpr hA
  have hB0 : 0 < B.card := Finset.card_pos.mpr hB
  refine ⟨?_, ?_, ?_, ?_⟩
  · rw [overlap_eq_div, Finset.inter_self, min_self]
    exact div_self (by exact_mod_cast hA0.ne')
  · rw [overlap_eq_div, overlap_eq_div, Finset.inter_comm, min_comm]
  · rw [overlap_eq_div]
    positivity
  · rw [overlap_eq_div]
    apply div_le_one_of_le₀
    · have h1 : (A ∩ B).card ≤ min A.card B.card :=
        le_min (Finset.card_le_card Finset.inter_subset_left)
          (Finset.card_le_card Finset.inter_subset_right)
      exact_mod_cast h1
    · positivity

/-- Witness for C2 at concrete sets. -/
theorem overlap_coefficient_properties_witness :
    overlap {"fed", "rate"} {"fed", "rate"} = 1 ∧
      overlap {"fed", "rate"} {"fed"} = overlap {"fed"} {"fed", "rate"} ∧
      0 ≤ overlap {"fed", "rate"} {"fed"} ∧
      overlap {"fed", "rate"} {"fed"} ≤ 1 :=
  overlap_coefficient_properties {"fed", "rate"} {"fed"}
    (by decide) (by decide)

/-! ## C3: lock acquisition semantics -/

/-- C3.  The shared acquisition preamble: with no lock row the caller
acquires (creating a row stamped `tnow`); with a live (unexpired) row it
does not acquire and the whole scheduled run is skipped (the Relater and
the CTR updater return the store untouched); with a row older than the
caller's timeout it deletes that row and acquires; and whenever it
acquires while the kind held at most one row, the kind's rows afterwards
are exactly the fresh one. -/
theorem lock_acquisition_cases (tbl : LockTable) (j : JobType)
    (timeout : Int) (tnow : Time) (st : Store) :
    (is_locked tbl j = false →
      tryAcquire tbl j timeout tnow = (true, createLock tbl j tnow)) ∧
    (is_locked tbl j = true → is_expired tbl j timeout tnow = false →
      tryAcquire tbl j timeout tnow = (false, tbl)) ∧
    (is_locked tbl j = true → is_expired tbl j timeout tnow = true →
      tryAcquire tbl j timeout tnow =
        (true, createLock (removeLock tbl j) j tnow)) ∧
    ((locksFor tbl j).length ≤ 1 → (tryAcquire tbl j timeout tnow).1 = true →
      locksFor (tryAcquire tbl j timeout tnow).2 j = [⟨j, tnow⟩]) ∧
    (is_locked st.locks .RELATE = true →
      is_expired st.locks .RELATE RELATE_LOCK_TIMEOUT tnow = false →
      relaterRun st tnow = st) ∧
    (is_locked st.locks .ANALYZE = true →
      is_expired st.locks .ANALYZE ANALYZE_LOCK_TIMEOUT tnow = false →
      ctrRun st tnow = st) := by
  refine ⟨?_, ?_, ?_, ?_, ?_, ?_⟩
  · intro h; simp [tryAcquire, h]
  · intro h he; simp [tryAcquire, h, he]
  · intro h he; simp [tryAcquire, h, he]
  · intro hlen hacq
    by_cases h : is_locked tbl j = true
    · by_cases he : is_expired tbl j timeout tnow = true
      · have hfor : locksFor (removeLock tbl j) j = [] := by
          rw [locksFor_removeLock]
          exact List.drop_eq_nil_of_le hlen
        simp [tryAcquire, h, he, locksFor_createLock, hfor]
      · simp [tryAcquire, h, he] at hacq
    · have h0 : locksFor tbl j = [] := by
        simp only [is_locked, decide_eq_true_eq, not_lt, Nat.le_zero,
          List.length_eq_zero] at h
        exact h
      simp [tryAcquire, h, locksFor_createLock, h0]
  · intro h he; simp [relaterRun, h, he]
  · intro h he; simp [ctrRun, h, he]

/-- Witness for C3: the three acquisition cases at concrete tables (a
bare store for the skip cases). -/
theorem lock_acquisition_cases_witness :
    tryAcquire [] .COLLECT 6 10 = (true, createLock [] .COLLECT 10) ∧
    tryAcquire [⟨.COLLECT, 9⟩] .COLLECT 6 10 = (false, [⟨.COLLECT, 9⟩]) ∧
    tryAcquire [⟨.COLLECT, 0⟩] .COLLECT 6 10 =
      (true, createLock (removeLock [⟨.COLLECT, 0⟩] .COLLECT) .COLLECT 10) ∧
    locksFor (tryAcquire [] .COLLECT 6 10).2 .COLLECT = [⟨.COLLECT, 10⟩] :=
  ⟨(lock_acquisition_cases [] .COLLECT 6 10
      ⟨[], [], [], [], [], [], [], [], [], []⟩).1 (by decide),
   (lock_acquisition_cases [⟨.COLLECT, 9⟩] .COLLECT 6 10
      ⟨[], [], [], [], [], [], [], [], [], []⟩).2.1 (by decide) (by decide),
   (lock_acquisition_cases [⟨.COLLECT, 0⟩] .COLLECT 6 10
      ⟨[], [], [], [], [], [], [], [], [], []⟩).2.2.1 (by decide) (by decide),
   (lock_acquisition_cases [] .COLLECT 6 10
      ⟨[], [], [], [], [], [], [], [], [], []⟩).2.2.2.1 (by decide) (by decide)⟩

/-- A store with every table empty (used by concrete instantiations). -/
def emptyStore : Store :=
  ⟨[], [], [], [], [], [], [], [], [], []⟩

/-- An unlocked kind has no rows. -/
theorem locksFor_eq_nil_of_not_locked (tbl : LockTable) (j : JobType)
    (h : is_locked tbl j = false) : locksFor tbl j = [] := by
  simp only [is_locked, decide_eq_false_iff_not, not_lt, Nat.le_zero,
    List.length_eq_zero] at h
  exact h

/-! ## C5: collector frequency adaptation -/

/-- The adjusted frequency always lands in `[MIN_UPDATE_FREQ, MAX_UPDATE_FREQ]`. -/
theorem adjustedFrequency_bounds (f n : Nat) :
    3 ≤ adjustedFrequency f n ∧ adjustedFrequency f n ≤ 6 := by
  unfold adjustedFrequency clampFreq MIN_UPDATE_FREQ MAX_UPDATE_FREQ
  split_ifs <;> omega

/-- A zero-yield cycle from an in-range frequency moves it to
`min 6 (f + 1)`. -/
theorem adjustedFrequency_zero (f : Nat) (h2 : 2 ≤ f) :
    adjustedFrequency f 0 = min 6 (f + 1) := by
  unfold adjustedFrequency clampFreq MIN_UPDATE_FREQ MAX_UPDATE_FREQ
  split_ifs <;> omega

/-- Frequency after a sequence of zero-yield polls, for an in-range
start. -/
theorem freq_after_zero_cycles (ts : List Time) (s : Status)
    (h2 : 2 ≤ s.update_frequency) (h6 : s.update_frequency ≤ 6) :
    (ts.foldl (fun acc t => processFeedStatus acc 0 t) s).update_frequency =
      min 6 (s.update_frequency + ts.length) := by
  induction ts generalizing s with
  | nil =>
    simp only [List.foldl_nil, List.length_nil, Nat.add_zero, Nat.min_def]
    split_ifs <;> omega
  | cons t ts ih =>
    have hstep : (processFeedStatus s 0 t).update_frequency =
        min 6 (s.update_frequency + 1) :=
      adjustedFrequency_zero s.update_frequency h2
    rw [List.foldl_cons,
      ih (processFeedStatus s 0 t)
        (by rw [hstep, Nat.min_def]; split_ifs <;> omega)
        (by rw [hstep, Nat.min_def]; split_ifs <;> omega),
      hstep, List.length_cons]
    simp only [Nat.min_def]
    split_ifs <;> omega

/-- C5.  Each poll stamps `update_datetime = now` unconditionally; the
adjusted frequency always lies in `[MIN_UPDATE_FREQ, MAX_UPDATE_FREQ]`
(hence it does after any sequence of polls); a yielding poll moves an
in-range frequency to `max 3 (f - 1)` and a zero-yield poll to
`min 6 (f + 1)`; and five consecutive zero-yield polls from anywhere in
range saturate the frequency at `MAX_UPDATE_FREQ = 6`. -/
theorem collector_frequency_adaptation (s : Status) (n : Nat) (tnow : Time)
    (ts : List Time) :
    (processFeedStatus s n tnow).update_datetime = tnow ∧
    (3 ≤ (processFeedStatus s n tnow).update_frequency ∧
      (processFeedStatus s n tnow).update_frequency ≤ 6) ∧
    (0 < n → s.update_frequency ≤ 6 →
      (processFeedStatus s n tnow).update_frequency =
        max 3 (s.update_frequency - 1)) ∧
    (n = 0 → 3 ≤ s.update_frequency →
      (processFeedStatus s n tnow).update_frequency =
        min 6 (s.update_frequency + 1)) ∧
    (3 ≤ s.update_frequency → s.update_frequency ≤ 6 → ts.length = 5 →
      (ts.foldl (fun acc t => processFeedStatus acc 0 t) s).update_frequency = 6) := by
  refine ⟨rfl, adjustedFrequency_bounds _ _, ?_, ?_, ?_⟩
  · intro hn h6
    show adjustedFrequency s.update_frequency n = _
    unfold adjustedFrequency clampFreq MIN_UPDATE_FREQ MAX_UPDATE_FREQ
    split_ifs <;> omega
  · intro hn h3
    subst hn
    exact adjustedFrequency_zero s.update_frequency (by omega)
  · intro h3 h6 hlen
    rw [freq_after_zero_cycles ts s (by omega) h6, hlen]
    omega

/-- Witness for C5 at a concrete status (both yield cases and the
five-cycle saturation). -/
theorem collector_frequency_adaptation_witness :
    (processFeedStatus ⟨1, 0, 4⟩ 0 9).update_datetime = 9 ∧
    (processFeedStatus ⟨1, 0, 4⟩ 2 9).update_frequency = max 3 (4 - 1) ∧
    (processFeedStatus ⟨1, 0, 4⟩ 0 9).update_frequency = min 6 (4 + 1) ∧
    (([3, 4, 5, 6, 7] : List Time).foldl
      (fun acc t => processFeedStatus acc 0 t) ⟨1, 0, 4⟩).update_frequency = 6 :=
  ⟨(collector_frequency_adaptation ⟨1, 0, 4⟩ 0 9 []).1,
   (collector_frequency_adaptation ⟨1, 0, 4⟩ 2 9 []).2.2.1 (by decide) (by decide),
   (collector_frequency_adaptation ⟨1, 0, 4⟩ 0 9 []).2.2.2.1 (by decide) (by decide),
   (collector_frequency_adaptation ⟨1, 0, 4⟩ 0 9 [3, 4, 5, 6, 7]).2.2.2.2
     (by decide) (by decide) (by decide)⟩

/-! ## C10: a run on an empty queue leaves the fresh lock behind -/

/-- C10.  A Relater run that starts unlocked with an empty relation
queue creates the lock row and returns without removing it: afterwards
the RELATE kind is locked, and any later run within the lock timeout
finds it locked-and-unexpired and changes nothing. -/
theorem relater_empty_queue_keeps_lock (st : Store) (tnow : Time)
    (hlock : is_locked st.locks .RELATE = false) (hq : st.simQueue = []) :
    relaterRun st tnow = { st with locks := createLock st.locks .RELATE tnow } ∧
    is_locked (relaterRun st tnow).locks .RELATE = true ∧
    ∀ t2 : Time, t2 - RELATE_LOCK_TIMEOUT ≤ tnow →
      relaterRun (relaterRun st tnow) t2 = relaterRun st tnow := by
  have h0 : locksFor st.locks .RELATE = [] :=
    locksFor_eq_nil_of_not_locked _ _ hlock
  have h1 : relaterRun st tnow =
      { st with locks := createLock st.locks .RELATE tnow } := by
    simp [relaterRun, hlock, relaterBody, hq]
  have hL : is_locked (createLock st.locks .RELATE tnow) .RELATE = true := by
    simp [is_locked, locksFor_createLock, h0]
  refine ⟨h1, by rw [h1]; exact hL, ?_⟩
  intro t2 ht
  have ht8 : t2 - 8 ≤ tnow := by simpa [RELATE_LOCK_TIMEOUT] using ht
  have hE : is_expired (createLock st.locks .RELATE tnow) .RELATE
      RELATE_LOCK_TIMEOUT t2 = false := by
    rw [is_expired, if_pos hL, locksFor_createLock, h0, List.nil_append,
      List.head?_cons]
    simp only [RELATE_LOCK_TIMEOUT, decide_eq_false_iff_not, not_lt]
    exact ht8
  rw [h1]
  simp [relaterRun, hL, hE]

/-- Witness for C10 at the empty store. -/
theorem relater_empty_queue_keeps_lock_witness :
    relaterRun emptyStore 0 =
      { emptyStore with locks := createLock emptyStore.locks .RELATE 0 } ∧
    is_locked (relaterRun emptyStore 0).locks .RELATE = true ∧
    relaterRun (relaterRun emptyStore 0) 5 = relaterRun emptyStore 0 :=
  ⟨(relater_empty_queue_keeps_lock emptyStore 0 (by decide) (by decide)).1,
   (relater_empty_queue_keeps_lock emptyStore 0 (by decide) (by decide)).2.1,
   (relater_empty_queue_keeps_lock emptyStore 0 (by decide) (by decide)).2.2 5
     (by decide)⟩

/-! ## C4: due-feed selection references a nonexistent column -/

/-- A concrete store for the due-feed claim: one category, one feed, one
status whose backoff interval has elapsed at `tnow = 100`. -/
def c4status : Status := ⟨1, 0, 3⟩

/-- The concrete store around `c4status`. -/
def c4store : Store :=
  { emptyStore with categories := [1], feeds := [⟨1, 1, 1⟩], statuses := [c4status] }

/-- C4.  `Collector.get_due_feeds` never selects anything: building its
query filter evaluates `Status.active`, a column `models.Status` does not
declare, so every call raises `AttributeError` — also on a store holding
a feed whose status satisfies the claim's due criterion
(`update_datetime ≤ now − 2^update_frequency`). -/
theorem collector_get_due_feeds_attribute_error :
    (∀ (st : Store) (tnow : Time) (cat : Nat),
      getDueFeeds st tnow cat =
        .error "AttributeError: type object Status has no attribute active") ∧
    c4status.update_datetime ≤ 100 - 2 ^ c4status.update_frequency ∧
    getDueFeeds c4store 100 1 =
      .error "AttributeError: type object Status has no attribute active" :=
  ⟨fun _ _ _ => rfl, by decide, rfl⟩

/-! ## C9: the CTR updater -/

/-- A concrete store for the CTR claims: one post published at time `0`
with an action holding 1 click over 2 impressions. -/
def c9store : Store :=
  { emptyStore with
    posts := [⟨1, 1, "t", "d", "l", 0⟩]
    postActions := [⟨1, 1, 2, 0⟩] }

/-- C9 counterexample.  At `tnow = 2000` (the post is more than a day
old) the run leaves `ctr = 0` for an action with `clicks = 1 > 0` and
`impressions = 2 > 0`, although `clicks / impressions = 1/2 ≠ 0` — the
claim's unrestricted "sets ctr = clicks / impressions whenever
impressions > 0 and clicks > 0" fails. -/
theorem ctr_stale_post_counterexample :
    c9store.postActions.map PostAction.clicks = [1] ∧
    c9store.postActions.map PostAction.impressions = [2] ∧
    (ctrRun c9store 2000).postActions.map PostAction.ctr = [0] ∧
    mkRat 1 2 ≠ (0 : ℚ) := by decide

/-- C9 (amended).  An unlocked CTR run maps `ctrUpdateRow` over the
action table; a row with `impressions = 0` is untouched; a selected
expired row (post older than one day, positive clicks and impressions)
gets `ctr = 0`; and a selected due row gets
`ctr = clicks / impressions`. -/
theorem ctr_run_semantics (st : Store) (tnow : Time)
    (hl : is_locked st.locks .ANALYZE = false) :
    (ctrRun st tnow).postActions = st.postActions.map (ctrUpdateRow st tnow) ∧
    ∀ a : PostAction,
      (a.impressions = 0 → ctrUpdateRow st tnow a = a) ∧
      (ctrExpired st tnow a = true → (ctrUpdateRow st tnow a).ctr = 0) ∧
      (ctrDue st tnow a = true → ctrExpired st tnow a = false →
        (ctrUpdateRow st tnow a).ctr = mkRat a.clicks a.impressions ∧
        0 < a.impressions ∧ 0 < a.clicks) := by
  refine ⟨?_, fun a => ⟨?_, ?_, ?_⟩⟩
  · simp only [ctrRun, hl, Bool.false_eq_true, if_false, ctrRunBody]
    exact List.map_congr_left fun a _ => rfl
  · intro h0
    simp [ctrUpdateRow, ctrDue, ctrExpired, h0]
  · intro he
    simp [ctrUpdateRow, he]
  · intro hd he
    refine ⟨by simp [ctrUpdateRow, hd, he], ?_, ?_⟩
    · have := hd
      simp only [ctrDue, Bool.and_eq_true, decide_eq_true_eq] at this
      exact this.1.2
    · have := hd
      simp only [ctrDue, Bool.and_eq_true, decide_eq_true_eq] at this
      exact this.2

/-- Witness for C9 (amended) at concrete rows. -/
theorem ctr_run_semantics_witness :
    (ctrRun c9store 100).postActions =
      c9store.postActions.map (ctrUpdateRow c9store 100) ∧
    ctrUpdateRow c9store 100 ⟨1, 5, 0, 0⟩ = ⟨1, 5, 0, 0⟩ ∧
    (ctrUpdateRow c9store 2000 ⟨1, 1, 2, 0⟩).ctr = 0 ∧
    (ctrUpdateRow c9store 100 ⟨1, 1, 2, 0⟩).ctr = mkRat 1 2 :=
  ⟨(ctr_run_semantics c9store 100 (by decide)).1,
   ((ctr_run_semantics c9store 100 (by decide)).2 ⟨1, 5, 0, 0⟩).1 (by decide),
   ((ctr_run_semantics c9store 2000 (by decide)).2 ⟨1, 1, 2, 0⟩).2.1 (by decide),
   (((ctr_run_semantics c9store 100 (by decide)).2 ⟨1, 1, 2, 0⟩).2.2
     (by decide) (by decide)).1⟩

/-! ## C6: the per-entry persistence is three separate commits -/

/-- A concrete entry for the persistence claims. -/
def c6post : Post := ⟨1, 1, "t", "d", "l", 0⟩

/-- C6 counterexample.  Applying only the first of the three commits of
`persistEntryCommits` (the state the store is left in when the
`PostAction.create` commit fails, or the process dies after `p.save()`)
is a committed state holding the Item but neither its ItemAction nor its
EntityQueueEntry — the creation is not all-or-nothing. -/
theorem collector_persist_midstate_counterexample :
    (applyCommits ((persistEntryCommits c6post).take 1) emptyStore).posts =
      [c6post] ∧
    (applyCommits ((persistEntryCommits c6post).take 1) emptyStore).postActions =
      [] ∧
    (applyCommits ((persistEntryCommits c6post).take 1) emptyStore).entityQueue =
      [] := by decide

/-- C6 (amended).  The Item, its zero-valued ItemAction and its
EntityQueueEntry are created by three separate transactions committed in
order; after the third commit all three rows exist, while the state after
the first commit alone holds the Item and nothing else. -/
theorem collector_persist_entry_commits (st : Store) (p : Post) :
    (applyCommits (persistEntryCommits p) st).posts = st.posts ++ [p] ∧
    (applyCommits (persistEntryCommits p) st).postActions =
      st.postActions ++ [⟨p.id, 0, 0, 0⟩] ∧
    (applyCommits (persistEntryCommits p) st).entityQueue =
      st.entityQueue ++ [p.id] ∧
    (applyCommits ((persistEntryCommits p).take 1) st).posts = st.posts ++ [p] ∧
    (applyCommits ((persistEntryCommits p).take 1) st).postActions =
      st.postActions ∧
    (applyCommits ((persistEntryCommits p).take 1) st).entityQueue =
      st.entityQueue :=
  ⟨rfl, rfl, rfl, rfl, rfl, rfl⟩

/-! ## C7: behaviour of a failing batch commit -/

/-- Every transaction of the Collector persistence loop leaves the
`joblock` table untouched. -/
theorem collector_commit_preserves_locks (tnow : Time)
    (pairs : List (Feed × List Post)) (c : Store → Store)
    (hc : c ∈ collectorCommits tnow pairs) (s : Store) :
    (c s).locks = s.locks := by
  simp only [collectorCommits, List.mem_flatMap] at hc
  obtain ⟨pr, _, hc⟩ := hc
  simp only [collectorFeedCommits, List.mem_append, List.mem_flatMap,
    List.mem_singleton] at hc
  rcases hc with ⟨q, _, hq⟩ | rfl
  · simp only [persistEntryCommits, List.mem_cons, List.not_mem_nil,
      or_false] at hq
    rcases hq with rfl | rfl | rfl <;> rfl
  · rfl

/-- A prefix of the Collector persistence transactions leaves the
`joblock` table untouched. -/
theorem collector_commits_take_locks (tnow : Time)
    (pairs : List (Feed × List Post)) (k : Nat) (st : Store) :
    (applyCommits ((collectorCommits tnow pairs).take k) st).locks =
      st.locks := by
  have h : ∀ cs : List (Store → Store),
      (∀ c ∈ cs, ∀ s : Store, (c s).locks = s.locks) →
      ∀ s : Store, (applyCommits cs s).locks = s.locks := by
    intro cs
    induction cs with
    | nil => intro _ s; rfl
    | cons c tl ih =>
      intro hcs s
      have := ih (fun d hd => hcs d (List.mem_cons_of_mem _ hd)) (c s)
      simpa [applyCommits] using this.trans (hcs c (List.mem_cons_self c tl) s)
  exact h _
    (fun c hc => collector_commit_preserves_locks tnow pairs c
      (List.mem_of_mem_take hc)) st

/-- Concrete stores for the C7 counterexample: a collector holding its
lock, about to persist one parsed post. -/
def c7post : Post := ⟨1, 1, "t", "d", "l", 0⟩

/-- The store as `Collector.run` left it after acquiring the COLLECT
lock. -/
def c7store : Store :=
  { emptyStore with
    locks := [⟨.COLLECT, 0⟩]
    feeds := [⟨1, 1, 1⟩]
    statuses := [⟨1, 0, 3⟩] }

/-- The committed state when the second transaction
(`PostAction.create`) raises. -/
def c7err : Store := { c7store with posts := [c7post] }

/-- C7 counterexample.  When a Collector persistence commit fails, the
exception propagates with the COLLECT lock still in place — the claim's
"the job's lock is released" fails for the Collector (and there is no
surrounding transaction to roll back: the already committed `p.save()`
stands while the action row is missing). -/
theorem collector_failure_keeps_lock_counterexample :
    collectorPersistFeedsE c7store 5 [(⟨1, 1, 1⟩, [c7post])] (some 1) =
      .error c7err ∧
    is_locked c7err.locks .COLLECT = true ∧
    c7err.posts = [c7post] ∧ c7err.postActions = [] :=
  ⟨rfl, by decide, by decide, by decide⟩

/-- C7 (amended).  For the Relater and the Processor a failing batch
commit rolls the store back to the batch start (earlier committed batches
are inside that store and stand), deletes the job's lock row, and
re-raises; for the Collector a failing commit re-raises with every
earlier transaction committed and the `joblock` table — including the
held COLLECT lock — untouched. -/
theorem batch_failure_semantics (st : Store) (tnow : Time) (cat : Nat)
    (batch : List Post) (extractFn : String → List String)
    (pairs : List (Feed × List Post)) (k : Nat)
    (hR : (locksFor st.locks .RELATE).length ≤ 1)
    (hP : (locksFor st.locks .PROCESS).length ≤ 1) :
    (∀ e : Store, processBatchE st tnow cat batch false = .error e →
      e.similarities = st.similarities ∧ e.simQueue = st.simQueue ∧
      e.posts = st.posts ∧ e.entities = st.entities ∧
      is_locked e.locks .RELATE = false) ∧
    (∀ e : Store, processorProcessBatchE extractFn st batch false = .error e →
      e.entities = st.entities ∧ e.simQueue = st.simQueue ∧
      e.entityQueue = st.entityQueue ∧
      is_locked e.locks .PROCESS = false) ∧
    (∀ e : Store, collectorPersistFeedsE st tnow pairs (some k) = .error e →
      e.locks = st.locks ∧
      e = applyCommits ((collectorCommits tnow pairs).take k) st) := by
  refine ⟨?_, ?_, ?_⟩
  · intro e he
    simp only [processBatchE, Bool.false_eq_true, if_false,
      Except.error.injEq] at he
    subst he
    refine ⟨rfl, rfl, rfl, rfl, ?_⟩
    simp only [is_locked, locksFor_removeLock, List.length_drop,
      decide_eq_false_iff_not, not_lt]
    omega
  · intro e he
    simp only [processorProcessBatchE, Bool.false_eq_true, if_false,
      Except.error.injEq] at he
    subst he
    refine ⟨rfl, rfl, rfl, ?_⟩
    simp only [is_locked, locksFor_removeLock, List.length_drop,
      decide_eq_false_iff_not, not_lt]
    omega
  · intro e he
    simp only [collectorPersistFeedsE, Except.error.injEq] at he
    subst he
    exact ⟨collector_commits_take_locks tnow pairs k st, rfl⟩

/-- Witness for C7 (amended) at concrete inputs: the error stores are
computed and every hypothesis discharged by evaluation. -/
theorem batch_failure_semantics_witness :
    is_locked
      ({ c7store with locks := removeLock c7store.locks .RELATE } : Store).locks
      .RELATE = false ∧
    is_locked
      ({ c7store with locks := removeLock c7store.locks .PROCESS } : Store).locks
      .PROCESS = false ∧
    c7err.locks = c7store.locks :=
  ⟨((batch_failure_semantics c7store 0 1 [] (fun _ => []) [] 1
      (by decide) (by decide)).1
      { c7store with locks := removeLock c7store.locks .RELATE }
      rfl).2.2.2.2,
   ((batch_failure_semantics c7store 0 1 [] (fun _ => []) [] 1
      (by decide) (by decide)).2.1
      { c7store with locks := removeLock c7store.locks .PROCESS }
      rfl).2.2.2,
   ((batch_failure_semantics c7store 5 1 [] (fun _ => [])
      [(⟨1, 1, 1⟩, [c7post])] 1 (by decide) (by decide)).2.2 c7err
      rfl).1⟩

/-! ## C8: extractor semantics per processed item -/

/-- The only queue row a post can enqueue carries its own id. -/
theorem mem_processorEnqueues (f : String → List String) (q : Post) (x : Nat)
    (hx : x ∈ processorEnqueues f q) : x = q.id := by
  simp only [processorEnqueues] at hx
  split at hx
  · cases hx
  · simpa using hx

/-- Number of relation-queue rows a batch enqueues for a given post: one
exactly when the post kept at least one term. -/
theorem enqueues_count (f : String → List String) (batch : List Post)
    (p : Post) (hn : (batch.map Post.id).Nodup) (hp : p ∈ batch) :
    (batch.flatMap (processorEnqueues f)).count p.id =
      if keptTerms f p = [] then 0 else 1 := by
  induction batch with
  | nil => cases hp
  | cons q tl ih =>
    rw [List.flatMap_cons, List.count_append]
    simp only [List.map_cons, List.nodup_cons] at hn
    rcases List.mem_cons.mp hp with heq | hptl
    · subst heq
    -- the head is the post itself; the tail never mentions its id
      have h1 : (processorEnqueues f p).count p.id =
          if keptTerms f p = [] then 0 else 1 := by
        simp only [processorEnqueues]
        split <;> simp
      have h2 : (tl.flatMap (processorEnqueues f)).count p.id = 0 := by
        rw [List.count_eq_zero]
        intro hmem
        obtain ⟨r, hr, hxr⟩ := List.mem_flatMap.mp hmem
        exact hn.1 ((mem_processorEnqueues f r p.id hxr) ▸
          List.mem_map_of_mem Post.id hr)
      rw [h1, h2, Nat.add_zero]
    · have hqp : q.id ≠ p.id := fun h =>
        hn.1 (h ▸ List.mem_map_of_mem Post.id hptl)
      have h1 : (processorEnqueues f q).count p.id = 0 := by
        rw [List.count_eq_zero]
        intro hmem
        exact hqp (mem_processorEnqueues f q p.id hmem).symm
      rw [h1, ih hn.2 hptl, Nat.zero_add]

/-- A batch containing a post with empty description contributes no
`Entity` row bearing that post's id. -/
theorem extractor_empty_desc_filter (f : String → List String)
    (batch : List Post) (p : Post) (hn : (batch.map Post.id).Nodup)
    (hp : p ∈ batch) (hdesc : p.desc = "") :
    (batch.flatMap (processorNewEntities f)).filter
      (fun e => decide (e.postId = p.id)) = [] := by
  rw [List.filter_eq_nil_iff]
  intro e he
  obtain ⟨q, hq, he2⟩ := List.mem_flatMap.mp he
  simp only [processorNewEntities, List.mem_map] at he2
  obtain ⟨w, hw, rfl⟩ := he2
  simp only [decide_eq_true_eq]
  intro hid
  have hqp : q = p := List.inj_on_of_nodup_map hn hq hp hid
  subst hqp
  simp [keptTerms, hdesc] at hw

/-- C8.  In an Extractor batch containing a post `p` (ids unique): when
`p.desc` is empty no `Entity` row for `p` is produced and no term is
kept (hence no relation-queue row either); in general the batch adds a
relation-queue row for `p` exactly when `p` kept at least one term; and
`p`'s entity-queue rows are deleted in every case. -/
theorem extractor_batch_semantics (f : String → List String) (st : Store)
    (batch : List Post) (p : Post) (hn : (batch.map Post.id).Nodup)
    (hp : p ∈ batch) :
    (p.desc = "" →
      (processorProcessBatch f st batch).entities.filter
          (fun e => decide (e.postId = p.id)) =
        st.entities.filter (fun e => decide (e.postId = p.id)) ∧
      keptTerms f p = []) ∧
    ((processorProcessBatch f st batch).simQueue.count p.id =
      st.simQueue.count p.id + (if keptTerms f p = [] then 0 else 1)) ∧
    p.id ∉ (processorProcessBatch f st batch).entityQueue := by
  refine ⟨?_, ?_, ?_⟩
  · intro hdesc
    constructor
    · show (st.entities ++ _).filter _ = _
      rw [List.filter_append,
        extractor_empty_desc_filter f batch p hn hp hdesc, List.append_nil]
    · simp [keptTerms, hdesc]
  · show (st.simQueue ++ _).count _ = _
    rw [List.count_append, enqueues_count f batch p hn hp]
  · intro hmem
    have h := List.mem_filter.mp hmem
    rw [decide_eq_true_eq] at h
    exact h.2 (List.mem_map_of_mem Post.id hp)

/-- Witness for C8: a two-post batch, one empty description, one with
recognised terms. -/
def c8emptyPost : Post := ⟨1, 1, "t1", "", "l1", 0⟩

/-- The second post of the C8 witness batch, with a nonempty
description. -/
def c8fullPost : Post := ⟨2, 1, "t2", "body", "l2", 0⟩

/-- The C8 witness store: both posts enqueued for extraction. -/
def c8store : Store :=
  { emptyStore with
    posts := [c8emptyPost, c8fullPost]
    entityQueue := [1, 2] }

/-- A concrete stand-in for `extract(clean(text))` in the C8 witness. -/
def c8extract : String → List String := fun _ => ["fed", "rate", "fed"]

/-- Witness for C8 at the concrete batch. -/
theorem extractor_batch_semantics_witness :
    ((processorProcessBatch c8extract c8store [c8emptyPost, c8fullPost]).entities.filter
        (fun e => decide (e.postId = 1)) =
      c8store.entities.filter (fun e => decide (e.postId = 1)) ∧
      keptTerms c8extract c8emptyPost = []) ∧
    ((processorProcessBatch c8extract c8store [c8emptyPost, c8fullPost]).simQueue.count 2 =
      c8store.simQueue.count 2 +
        (if keptTerms c8extract c8fullPost = [] then 0 else 1)) ∧
    (2 : Nat) ∉ (processorProcessBatch c8extract c8store
      [c8emptyPost, c8fullPost]).entityQueue :=
  ⟨(extractor_batch_semantics c8extract c8store [c8emptyPost, c8fullPost]
      c8emptyPost (by decide) (by decide)).1 (by decide),
   (extractor_batch_semantics c8extract c8store [c8emptyPost, c8fullPost]
      c8fullPost (by decide) (by decide)).2.1,
   (extractor_batch_semantics c8extract c8store [c8emptyPost, c8fullPost]
      c8fullPost (by decide) (by decide)).2.2⟩

/-! ## C1: similarity rows produced for a pair within a pass -/

/-- The committed similarity rows of one queued post depend only on the
`posts`, `entities` and `feeds` tables (which a batch never writes). -/
theorem newSimsForPost_congr (s1 s2 : Store) (tnow : Time) (cat : Nat)
    (hposts : s1.posts = s2.posts) (hent : s1.entities = s2.entities)
    (hfeeds : s1.feeds = s2.feeds) :
    newSimsForPost s1 tnow cat = newSimsForPost s2 tnow cat := by
  funext p
  simp only [newSimsForPost, acceptedPosts, keywordedPosts, entityCacheIds,
    postEntities, entitySet, postCategory, feedOf, hposts, hent, hfeeds]

/-- The batching fold of one category pass: similarity rows accumulate
per batch while the read-only tables stay fixed. -/
theorem foldl_processBatch (tnow : Time) (cat : Nat) (bs : List (List Post))
    (st : Store) :
    ((bs.foldl (fun s b => processBatch s tnow cat b) st)).similarities =
      st.similarities ++ bs.flatten.flatMap (newSimsForPost st tnow cat) ∧
    ((bs.foldl (fun s b => processBatch s tnow cat b) st)).posts = st.posts ∧
    ((bs.foldl (fun s b => processBatch s tnow cat b) st)).entities =
      st.entities ∧
    ((bs.foldl (fun s b => processBatch s tnow cat b) st)).feeds = st.feeds := by
  induction bs generalizing st with
  | nil => exact ⟨by simp, rfl, rfl, rfl⟩
  | cons b bs ih =>
    obtain ⟨h1, h2, h3, h4⟩ := ih (processBatch st tnow cat b)
    rw [List.foldl_cons]
    refine ⟨?_, h2, h3, h4⟩
    rw [h1,
      newSimsForPost_congr (processBatch st tnow cat b) st tnow cat rfl rfl rfl,
      List.flatten_cons, List.flatMap_append]
    show (st.similarities ++ _) ++ _ = _
    rw [List.append_assoc]

/-- Flattening the fuel-indexed chunking recovers the list. -/
theorem chunksFuel_flatten (n : Nat) (hn : 0 < n) :
    ∀ (fuel : Nat) (l : List Post), l.length ≤ fuel →
      (chunksFuel n fuel l).flatten = l := by
  intro fuel
  induction fuel with
  | zero =>
    intro l hl
    rw [List.length_eq_zero.mp (Nat.le_zero.mp hl)]
    rfl
  | succ fuel ih =>
    intro l hl
    cases l with
    | nil => rfl
    | cons a tl =>
      show ((a :: tl).take n :: chunksFuel n fuel ((a :: tl).drop n)).flatten =
        a :: tl
      rw [List.flatten_cons,
        ih ((a :: tl).drop n)
          (by
            rw [List.length_drop]
            simp only [List.length_cons] at hl ⊢
            omega),
        List.take_append_drop]

/-- Flattening the Relater's batches recovers the enqueued list. -/
theorem chunks_flatten (l : List Post) :
    (chunks RELATE_BATCH_SIZE l).flatten = l :=
  chunksFuel_flatten RELATE_BATCH_SIZE (by decide) l.length l le_rfl

/-- One category pass: the committed similarities are the old table
followed by the rows of every enqueued post in queue order; the
read-only tables stay fixed. -/
theorem relaterProcessCategory_state (st : Store) (tnow : Time) (cat : Nat) :
    (relaterProcessCategory st tnow cat).similarities =
      st.similarities ++
        (enqueuedPosts st cat).flatMap (newSimsForPost st tnow cat) ∧
    (relaterProcessCategory st tnow cat).posts = st.posts ∧
    (relaterProcessCategory st tnow cat).entities = st.entities ∧
    (relaterProcessCategory st tnow cat).feeds = st.feeds := by
  by_cases h : (enqueuedPosts st cat).length = 0
  · have h2 : enqueuedPosts st cat = [] := List.length_eq_zero.mp h
    simp [relaterProcessCategory, h, h2]
  · obtain ⟨h1, h2, h3, h4⟩ :=
      foldl_processBatch tnow cat
        (chunks RELATE_BATCH_SIZE (enqueuedPosts st cat)) st
    rw [chunks_flatten] at h1
    simp only [relaterProcessCategory, h, if_false]
    exact ⟨h1, h2, h3, h4⟩

/-- The accepted candidates of a post carry pairwise distinct ids when
the posts table does. -/
theorem acceptedPosts_ids_nodup (st : Store) (tnow : Time) (cat : Nat)
    (p : Post) (hpn : (st.posts.map Post.id).Nodup) :
    ((acceptedPosts st tnow cat p).map Post.id).Nodup :=
  hpn.sublist (((List.filter_sublist _).trans (List.filter_sublist _)).map Post.id)

/-- Counting posts with a given id in an id-unique list. -/
theorem countP_id_eq (l : List Post) (h : (l.map Post.id).Nodup) (y : Nat) :
    l.countP (fun rp => decide (rp.id = y)) =
      if y ∈ l.map Post.id then 1 else 0 := by
  have h1 : l.countP (fun rp => decide (rp.id = y)) =
      (l.map Post.id).countP (fun i => decide (i = y)) := by
    rw [List.countP_map]; rfl
  have h2 : (l.map Post.id).countP (fun i => decide (i = y)) =
      (l.map Post.id).count y := by
    rw [List.count]
    exact List.countP_congr (fun x _ => by simp)
  rw [h1, h2]
  split
  next hmem => exact List.count_eq_one_of_mem h hmem
  next hmem => exact List.count_eq_zero.mpr hmem

/-- A post whose id differs from both endpoints contributes no row for
the pair. -/
theorem newSimsForPost_count_zero (st : Store) (tnow : Time) (cat : Nat)
    (r : Post) (x : Similarity) (h1 : r.id ≠ x.source_id)
    (h2 : r.id ≠ x.related_id) :
    (newSimsForPost st tnow cat r).count x = 0 := by
  rw [List.count_eq_zero]
  intro hmem
  obtain ⟨rp, -, hmem2⟩ := List.mem_flatMap.mp hmem
  simp only [List.mem_cons, List.not_mem_nil, or_false] at hmem2
  rcases hmem2 with rfl | rfl
  · exact h1 rfl
  · exact h2 rfl

/-- Sum of a two-point-support function over a list. -/
theorem sum_map_two_support {α : Type} [DecidableEq α] (l : List α)
    (g : α → Nat) (P Q : α) (hne : P ≠ Q)
    (h0 : ∀ r ∈ l, r ≠ P → r ≠ Q → g r = 0) :
    (l.map g).sum = l.count P * g P + l.count Q * g Q := by
  induction l with
  | nil => simp
  | cons a tl ih =>
    have ih2 := ih (fun r hr => h0 r (List.mem_cons_of_mem a hr))
    rw [List.map_cons, List.sum_cons, ih2]
    by_cases hP : a = P
    · subst hP
      rw [List.count_cons_self, List.count_cons_of_ne (fun h => hne h.symm)]
      ring
    · by_cases hQ : a = Q
      · subst hQ
        rw [List.count_cons_self, List.count_cons_of_ne (fun h => hne h)]
        ring
      · rw [List.count_cons_of_ne (fun h => hP h.symm),
          List.count_cons_of_ne (fun h => hQ h.symm),
          h0 a (List.mem_cons_self a tl) hP hQ, Nat.zero_add]

/-- In an id-unique posts table, `find?` by a member's id returns that
member. -/
theorem find?_post_eq (st : Store) (hpn : (st.posts.map Post.id).Nodup)
    (P : Post) (hP : P ∈ st.posts) :
    st.posts.find? (fun p => decide (p.id = P.id)) = some P := by
  cases hfind : st.posts.find? (fun p => decide (p.id = P.id)) with
  | none =>
    exact absurd (by simp : decide (P.id = P.id) = true)
      (by simpa using List.find?_eq_none.mp hfind P hP)
  | some q =>
    have hq1 := List.find?_some hfind
    have hq2 := List.mem_of_find?_eq_some hfind
    rw [decide_eq_true_eq] at hq1
    rw [List.inj_on_of_nodup_map hpn hq2 hP hq1]

/-- Every post of a category's queue is a row of the posts table. -/
theorem enqueuedPosts_subset (st : Store) (cat : Nat) :
    ∀ r ∈ enqueuedPosts st cat, r ∈ st.posts := by
  intro r hr
  obtain ⟨pid, -, hfind⟩ := List.mem_filterMap.mp (List.mem_filter.mp hr).1
  exact List.mem_of_find?_eq_some hfind

/-- Counting map-of-option hits in a queue. -/
theorem count_filterMap_posts (l : List Nat) (f : Nat → Option Post) (b : Post) :
    (l.filterMap f).count b = l.countP (fun a => decide (f a = some b)) := by
  induction l with
  | nil => rfl
  | cons a tl ih =>
    rw [List.filterMap_cons]
    cases h : f a <;> simp [h, List.countP_cons, ih, List.count_cons]

/-- A post queued once (by id) appears exactly once in its category's
enqueued list. -/
theorem enqueuedPosts_count (st : Store) (cat : Nat) (P : Post)
    (hpn : (st.posts.map Post.id).Nodup) (hqn : st.simQueue.Nodup)
    (hP : P ∈ st.posts) (hPq : P.id ∈ st.simQueue)
    (hPc : postCategory st P = some cat) :
    (enqueuedPosts st cat).count P = 1 := by
  unfold enqueuedPosts
  rw [List.count_filter (by simp [hPc]), count_filterMap_posts]
  have hcongr : st.simQueue.countP
      (fun pid => decide (st.posts.find? (fun p => decide (p.id = pid)) = some P)) =
      st.simQueue.countP (fun pid => decide (pid = P.id)) := by
    refine List.countP_congr (fun pid _ => ?_)
    simp only [decide_eq_true_eq]
    constructor
    · intro hfind
      have := List.find?_some hfind
      rw [decide_eq_true_eq] at this
      exact this.symm
    · intro h
      subst h
      exact find?_post_eq st hpn P hP
  rw [hcongr]
  have h2 : st.simQueue.countP (fun pid => decide (pid = P.id)) =
      st.simQueue.count P.id := by
    rw [List.count]
    exact List.countP_congr (fun x _ => by simp)
  rw [h2]
  exact List.count_eq_one_of_mem hqn hPq

/-- Sum of indicator values over a list is a `countP`. -/
theorem sum_map_ite_eq_countP (l : List Post) (p : Post → Bool) :
    (l.map (fun rp => if p rp then 1 else 0)).sum = l.countP p := by
  induction l with
  | nil => rfl
  | cons a tl ih =>
    rw [List.map_cons, List.sum_cons, ih, List.countP_cons]
    by_cases h : p a = true
    · simp [h, Nat.add_comm]
    · simp [h]

/-- Rows of one post for an ordered pair: one per direction exactly when
the partner is among the accepted candidates. -/
theorem newSimsForPost_count_pair (st : Store) (tnow : Time) (cat : Nat)
    (r : Post) (y : Nat) (hy : r.id ≠ y)
    (hpn : (st.posts.map Post.id).Nodup) :
    (newSimsForPost st tnow cat r).count ⟨r.id, y⟩ =
      (if y ∈ (acceptedPosts st tnow cat r).map Post.id then 1 else 0) ∧
    (newSimsForPost st tnow cat r).count ⟨y, r.id⟩ =
      (if y ∈ (acceptedPosts st tnow cat r).map Post.id then 1 else 0) := by
  have hnodup := acceptedPosts_ids_nodup st tnow cat r hpn
  constructor
  · rw [newSimsForPost, List.count_flatMap]
    have hmap : (acceptedPosts st tnow cat r).map
        ((List.count ⟨r.id, y⟩) ∘ fun rp =>
          ([⟨r.id, rp.id⟩, ⟨rp.id, r.id⟩] : List Similarity)) =
        (acceptedPosts st tnow cat r).map
          (fun rp => if decide (rp.id = y) then 1 else 0) := by
      refine List.map_congr_left (fun rp _ => ?_)
      simp only [Function.comp_apply]
      by_cases hrp : rp.id = y
      · subst hrp
        rw [if_pos (by simp)]
        rw [List.count_cons, List.count_cons, List.count_nil]
        have hne1 : (⟨rp.id, r.id⟩ : Similarity) ≠ ⟨r.id, rp.id⟩ := by
          intro h
          exact hy (congrArg Similarity.source_id h).symm
        simp [hne1]
      · rw [if_neg (by simp [hrp])]
        rw [List.count_eq_zero]
        intro hmem
        simp only [List.mem_cons, List.not_mem_nil, or_false,
          Similarity.mk.injEq, and_true, true_and] at hmem
        rcases hmem with h2 | ⟨-, h2⟩
        · exact hrp h2.symm
        · exact hy h2.symm
    rw [hmap, sum_map_ite_eq_countP, countP_id_eq _ hnodup]
  · rw [newSimsForPost, List.count_flatMap]
    have hmap : (acceptedPosts st tnow cat r).map
        ((List.count ⟨y, r.id⟩) ∘ fun rp =>
          ([⟨r.id, rp.id⟩, ⟨rp.id, r.id⟩] : List Similarity)) =
        (acceptedPosts st tnow cat r).map
          (fun rp => if decide (rp.id = y) then 1 else 0) := by
      refine List.map_congr_left (fun rp _ => ?_)
      simp only [Function.comp_apply]
      by_cases hrp : rp.id = y
      · subst hrp
        rw [if_pos (by simp)]
        rw [List.count_cons, List.count_cons, List.count_nil]
        have hne1 : (⟨r.id, rp.id⟩ : Similarity) ≠ ⟨rp.id, r.id⟩ := by
          intro h
          exact hy (congrArg Similarity.source_id h)
        simp [hne1]
      · rw [if_neg (by simp [hrp])]
        rw [List.count_eq_zero]
        intro hmem
        simp only [List.mem_cons, List.not_mem_nil, or_false,
          Similarity.mk.injEq, and_true, true_and] at hmem
        rcases hmem with ⟨h2, -⟩ | h2
        · exact hy h2.symm
        · exact hrp h2.symm
    rw [hmap, sum_map_ite_eq_countP, countP_id_eq _ hnodup]

/-- Rows for the ordered pair `(P.id, Q.id)` produced by one category
pass over its queue: one from `P`'s perspective when `Q` is accepted
there, plus one from `Q`'s perspective when `P` is accepted there. -/
theorem relater_flatMap_pair_count (st : Store) (tnow : Time) (cat : Nat)
    (P Q : Post)
    (hpn : (st.posts.map Post.id).Nodup) (hqn : st.simQueue.Nodup)
    (hP : P ∈ st.posts) (hQ : Q ∈ st.posts)
    (hPq : P.id ∈ st.simQueue) (hQq : Q.id ∈ st.simQueue)
    (hPc : postCategory st P = some cat) (hQc : postCategory st Q = some cat)
    (hne : P.id ≠ Q.id) :
    ((enqueuedPosts st cat).flatMap (newSimsForPost st tnow cat)).count
        ⟨P.id, Q.id⟩ =
      (if Q.id ∈ (acceptedPosts st tnow cat P).map Post.id then 1 else 0) +
      (if P.id ∈ (acceptedPosts st tnow cat Q).map Post.id then 1 else 0) := by
  have hPQ : P ≠ Q := fun h => hne (congrArg Post.id h)
  rw [List.count_flatMap,
    sum_map_two_support (enqueuedPosts st cat) _ P Q hPQ ?h0]
  case h0 =>
    intro r hr hrP hrQ
    apply newSimsForPost_count_zero
    · intro h
      exact hrP
        (List.inj_on_of_nodup_map hpn (enqueuedPosts_subset st cat r hr) hP h)
    · intro h
      exact hrQ
        (List.inj_on_of_nodup_map hpn (enqueuedPosts_subset st cat r hr) hQ h)
  rw [enqueuedPosts_count st cat P hpn hqn hP hPq hPc,
    enqueuedPosts_count st cat Q hpn hqn hQ hQq hQc,
    Nat.one_mul, Nat.one_mul]
  simp only [Function.comp_apply]
  rw [(newSimsForPost_count_pair st tnow cat P Q.id hne hpn).1,
    (newSimsForPost_count_pair st tnow cat Q P.id (fun h => hne h.symm) hpn).2]

/-- C1 (amended).  Within one Relater pass over a category whose queue
holds the distinct posts `P` and `Q` (ids unique everywhere): the pass
appends, for each direction of the pair, one row per perspective that
accepts the pair — so a pair accepted from both `P`'s and `Q`'s
perspective yields two `P→Q` rows and two `Q→P` rows (four rows, i.e.
duplicate edges), while a pair accepted from a single perspective yields
exactly one row per direction; and no row produced by the pass is a
self-edge. -/
theorem relater_pass_pair_rows (st : Store) (tnow : Time) (cat : Nat)
    (P Q : Post)
    (hpn : (st.posts.map Post.id).Nodup) (hqn : st.simQueue.Nodup)
    (hP : P ∈ st.posts) (hQ : Q ∈ st.posts)
    (hPq : P.id ∈ st.simQueue) (hQq : Q.id ∈ st.simQueue)
    (hPc : postCategory st P = some cat) (hQc : postCategory st Q = some cat)
    (hne : P.id ≠ Q.id) :
    (relaterProcessCategory st tnow cat).similarities.count ⟨P.id, Q.id⟩ =
      st.similarities.count ⟨P.id, Q.id⟩ +
      ((if Q.id ∈ (acceptedPosts st tnow cat P).map Post.id then 1 else 0) +
       (if P.id ∈ (acceptedPosts st tnow cat Q).map Post.id then 1 else 0)) ∧
    (relaterProcessCategory st tnow cat).similarities.count ⟨Q.id, P.id⟩ =
      st.similarities.count ⟨Q.id, P.id⟩ +
      ((if Q.id ∈ (acceptedPosts st tnow cat P).map Post.id then 1 else 0) +
       (if P.id ∈ (acceptedPosts st tnow cat Q).map Post.id then 1 else 0)) ∧
    ∀ s ∈ (relaterProcessCategory st tnow cat).similarities,
      s ∈ st.similarities ∨ s.source_id ≠ s.related_id := by
  obtain ⟨hsim, -, -, -⟩ := relaterProcessCategory_state st tnow cat
  refine ⟨?_, ?_, ?_⟩
  · rw [hsim, List.count_append,
      relater_flatMap_pair_count st tnow cat P Q hpn hqn hP hQ hPq hQq hPc
        hQc hne]
  · rw [hsim, List.count_append,
      relater_flatMap_pair_count st tnow cat Q P hpn hqn hQ hP hQq hPq hQc
        hPc (fun h => hne h.symm)]
    set aP := (if Q.id ∈ (acceptedPosts st tnow cat P).map Post.id then 1 else 0)
    set aQ := (if P.id ∈ (acceptedPosts st tnow cat Q).map Post.id then 1 else 0)
    omega
  · intro s hs
    rw [hsim] at hs
    rcases List.mem_append.mp hs with h | h
    · exact Or.inl h
    · right
      obtain ⟨r, -, hsr⟩ := List.mem_flatMap.mp h
      obtain ⟨rp, hrp, hsrp⟩ := List.mem_flatMap.mp hsr
      have hfilter := List.of_mem_filter hrp
      rw [Bool.and_eq_true] at hfilter
      have hneid : rp.id ≠ r.id := by simpa using hfilter.1
      simp only [List.mem_cons, List.not_mem_nil, or_false] at hsrp
      rcases hsrp with rfl | rfl
      · exact fun h2 => hneid h2.symm
      · exact hneid

/-- The two posts of the C1 concrete store. -/
def c1P : Post := ⟨1, 1, "t1", "d1", "l1", -1⟩

/-- The second post of the C1 concrete store. -/
def c1Q : Post := ⟨2, 1, "t2", "d2", "l2", -1⟩

/-- C1 concrete store: both posts queued for relation, both recent, in
the same category, with identical entity sets (overlap 1). -/
def c1store : Store :=
  { emptyStore with
    categories := [1]
    feeds := [⟨1, 1, 1⟩]
    posts := [c1P, c1Q]
    entities := [⟨1, "a"⟩, ⟨1, "b"⟩, ⟨2, "a"⟩, ⟨2, "b"⟩]
    simQueue := [1, 2] }

/-- C1 counterexample.  Both queued posts clear the threshold against
each other, and a full Relater run commits four rows for the pair — the
directed edge `1→2` twice and `2→1` twice — not the claimed two. -/
theorem relater_duplicate_edges_counterexample :
    c1store.simQueue = [1, 2] ∧
    THRESHOLD ≤ overlap (entitySet c1store 1) (entitySet c1store 2) ∧
    (relaterRun c1store 0).similarities =
      [⟨1, 2⟩, ⟨2, 1⟩, ⟨2, 1⟩, ⟨1, 2⟩] ∧
    (relaterRun c1store 0).similarities.count ⟨1, 2⟩ = 2 ∧
    (relaterRun c1store 0).similarities.count ⟨2, 1⟩ = 2 := by decide

/-- Witness for C1 (amended) at the concrete store. -/
theorem relater_pass_pair_rows_witness :
    (relaterProcessCategory c1store 0 1).similarities.count ⟨1, 2⟩ =
      c1store.similarities.count ⟨1, 2⟩ +
      ((if (2 : Nat) ∈ (acceptedPosts c1store 0 1 c1P).map Post.id then 1
        else 0) +
       (if (1 : Nat) ∈ (acceptedPosts c1store 0 1 c1Q).map Post.id then 1
        else 0)) ∧
    ∀ s ∈ (relaterProcessCategory c1store 0 1).similarities,
      s ∈ c1store.similarities ∨ s.source_id ≠ s.related_id :=
  ⟨(relater_pass_pair_rows c1store 0 1 c1P c1Q (by decide) (by decide)
      (by decide) (by decide) (by decide) (by decide) (by decide) (by decide)
      (by decide)).1,
   (relater_pass_pair_rows c1store 0 1 c1P c1Q (by decide) (by decide)
      (by decide) (by decide) (by decide) (by decide) (by decide) (by decide)
      (by decide)).2.2⟩

end Aggrep
